import Mathlib

/-!
Shallow embedding of `src/prime.py` (a Discord media-relay bot).

Python strings are modelled as `List Char`; Python string operations
(`str.lower`, `str.endswith`, substring containment via `in`, `str.strip`,
the regex scan `re.findall` with pattern `(https?://\S+)`) are modelled by the
executable functions below.  Discord objects (messages, attachments, role
members) are modelled as records carrying exactly the fields the program
reads; network effects (delete, send, create_dm) are modelled by traces of
attempted operations together with boolean failure oracles that say which
attempted operation raises.
-/

namespace Prime

/-- Lowercasing of one character, as Python `str.lower` acts on ASCII
(the URLs handled by the program are ASCII). -/
def lower_char (c : Char) : Char :=
  if 65 ≤ c.toNat && c.toNat ≤ 90 then Char.ofNat (c.toNat + 32) else c

/-- Model of Python `str.lower`. -/
def lower (s : List Char) : List Char := s.map lower_char

/-- Model of Python `str.endswith`: the second list is a suffix of the first. -/
def ends_with (s suf : List Char) : Bool :=
  s.drop (s.length - suf.length) == suf

/-- Does `s` begin with `p`? (helper for substring containment). -/
def begins_with : List Char → List Char → Bool
  | _, [] => true
  | [], _ :: _ => false
  | c :: cs, d :: ds => c == d && begins_with cs ds

/-- Model of Python `sub in s` (substring containment). -/
def contains_sub : List Char → List Char → Bool
  | [], sub => sub.isEmpty
  | c :: tl, sub => begins_with (c :: tl) sub || contains_sub tl sub

/-- Characters matched by Python regex `\s` (so `\S` is their complement). -/
def is_py_space (c : Char) : Bool :=
  c == ' ' || c == '\t' || c == '\n' || c == '\r' || c == '\x0b' || c == '\x0c'

/-- Whitespace strip from the front and the back, modelling Python `str.strip`. -/
def py_strip (s : List Char) : List Char :=
  ((s.dropWhile is_py_space).reverse.dropWhile is_py_space).reverse

/-- The tuple `media_extensions` of `is_media_link` (prime.py line 44). -/
def media_extensions : List (List Char) :=
  [(".png").data, (".jpg").data, (".jpeg").data, (".gif").data, (".mp4").data,
   (".mov").data, (".avi").data, (".webm").data, (".webp").data]

/-- The tuple `image_extensions` of `is_image_link` (prime.py line 56). -/
def image_extensions : List (List Char) :=
  [(".png").data, (".jpg").data, (".jpeg").data, (".gif").data, (".webp").data]

/-- The CDN substring checked by `is_media_link` (prime.py line 48). -/
def cdn_sub : List Char := ("cdn.discordapp.com/attachments").data

/-- Translation of `is_media_link` (prime.py lines 39-49). -/
def is_media_link (url : List Char) : Bool :=
  let url_lower := lower url
  media_extensions.any (fun ext => ends_with url_lower ext)
    || contains_sub url_lower cdn_sub

/-- Translation of `is_image_link` (prime.py lines 51-57). -/
def is_image_link (url : List Char) : Bool :=
  image_extensions.any (fun ext => ends_with (lower url) ext)

/-- The three classes a link can fall into (spec section 3, `LinkClass`). -/
inductive LinkKind
  | Image
  | Video
  | Weird
deriving DecidableEq

/-- Classification of one URL, as both workflows partition links:
`normal_links`/`weird_links` by `is_media_link`, then `image_links`/
`video_links` by `is_image_link` (prime.py lines 120-125 and 227-232). -/
def classify (url : List Char) : LinkKind :=
  if is_media_link url then
    (if is_image_link url then LinkKind.Image else LinkKind.Video)
  else LinkKind.Weird

/-- Match of the regex `https?://\S+` anchored at the head of the list:
returns the greedy match and the remaining characters, or `none`. -/
def match_url_at (cs : List Char) : Option (List Char × List Char) :=
  match cs with
  | 'h' :: 't' :: 't' :: 'p' :: rest =>
    match rest with
    | 's' :: ':' :: '/' :: '/' :: r =>
      let tok := r.takeWhile (fun c => !(is_py_space c))
      if tok.isEmpty then none
      else some ((['h', 't', 't', 'p', 's', ':', '/', '/'] ++ tok), r.drop tok.length)
    | ':' :: '/' :: '/' :: r =>
      let tok := r.takeWhile (fun c => !(is_py_space c))
      if tok.isEmpty then none
      else some ((['h', 't', 't', 'p', ':', '/', '/'] ++ tok), r.drop tok.length)
    | _ => none
  | _ => none

/-- Scan for all non-overlapping regex matches left to right, as
`re.findall` does.  The fuel argument only bounds the recursion; a match
always consumes at least eight characters, so fuel equal to the length of
the scanned list is enough. -/
def scan_urls : Nat → List Char → List (List Char)
  | 0, _ => []
  | _ + 1, [] => []
  | fuel + 1, c :: cs =>
    match match_url_at (c :: cs) with
    | some (tok, rest) => tok :: scan_urls fuel rest
    | none => scan_urls fuel cs

/-- Translation of the `re.findall` call with pattern `(https?://\S+)` (prime.py lines 109, 223). -/
def extract_links (s : List Char) : List (List Char) := scan_urls s.length s

/-- Recursion core of `chunk_list`; the fuel bounds the recursion and fuel
equal to the length of the list is enough for any positive chunk size. -/
def chunk_aux {α : Type} : Nat → List α → Nat → List (List α)
  | 0, _, _ => []
  | _ + 1, [], _ => []
  | fuel + 1, c :: cs, n => (c :: cs).take n :: chunk_aux fuel ((c :: cs).drop n) n

/-- Translation of `chunk_list` (prime.py lines 59-65): successive slices
`lst[i : i + chunk_size]`.  The program only calls it with chunk size 10. -/
def chunk_list {α : Type} (l : List α) (n : Nat) : List (List α) :=
  chunk_aux l.length l n

/-- An attachment: the program reads its direct URL; the byte size exists
only for the spec-modelled attachment-forwarding variant (spec section 4.3). -/
structure Attachment where
  url : List Char
  size : Nat
deriving DecidableEq

/-- A source-channel message, with exactly the fields the program reads. -/
structure Message where
  id : Nat
  author_bot : Bool
  content : List Char
  attachments : List Attachment
deriving DecidableEq

/-- The combined link list of a message: attachment URLs followed by text
links (prime.py lines 107-112 and 222-224). -/
def combined_links (m : Message) : List (List Char) :=
  m.attachments.map (fun a => a.url) ++ extract_links m.content

/-- Links of the combined list that `is_media_link` accepts (prime.py 120, 227). -/
def normal_links (m : Message) : List (List Char) :=
  (combined_links m).filter (fun u => is_media_link u)

/-- Links of the combined list that `is_media_link` rejects (prime.py 121, 228). -/
def weird_links (m : Message) : List (List Char) :=
  (combined_links m).filter (fun u => !(is_media_link u))

/-- Media links that `is_image_link` accepts (prime.py 124, 231). -/
def image_links (m : Message) : List (List Char) :=
  (normal_links m).filter (fun u => is_image_link u)

/-- Media links that `is_image_link` rejects (prime.py 125, 232). -/
def video_links (m : Message) : List (List Char) :=
  (normal_links m).filter (fun u => !(is_image_link u))

/-- One outbound send: a plain text post, an embed batch, or a bare link. -/
inductive SendPayload
  | text (s : List Char)
  | embeds (urls : List (List Char))
  | link (url : List Char)
deriving DecidableEq

/-- An operation attempted by the relocation workflow. -/
inductive Action
  | delete_original
  | send (p : SendPayload)
deriving DecidableEq

/-- The sends the relocation workflow queues after a successful delete:
trimmed text when non-empty, then image-embed chunks of at most ten, then
each video link alone, then each weird link alone (prime.py lines 147-180). -/
def relocation_sends (m : Message) : List SendPayload :=
  (if (py_strip m.content).isEmpty then [] else [SendPayload.text (py_strip m.content)])
    ++ (chunk_list (image_links m) 10).map SendPayload.embeds
    ++ (video_links m).map SendPayload.link
    ++ (weird_links m).map SendPayload.link

/-- Operations attempted by the relocation workflow from the point where
the original message has been fetched (prime.py lines 105-180).
`delete_ok` is whether `original_message.delete()` succeeds; `dest_found`
is whether `bot.get_channel(DEST_CHANNEL_ID)` finds the channel.  Send
failures do not alter this attempt trace because every send sits in its
own try/except. -/
def on_message_actions (m : Message) (delete_ok : Bool) (dest_found : Bool) : List Action :=
  if (combined_links m).isEmpty then []
  else
    Action.delete_original ::
      (if delete_ok then
        (if dest_found then (relocation_sends m).map Action.send else [])
      else [])

/-- Run a list of operations where every operation has its own exception
handler (the relocation sends): each is attempted, paired with whether it
failed, and the loop always continues. -/
def run_each {α : Type} (fail : Nat → Bool) : List α → Nat → List (α × Bool)
  | [], _ => []
  | x :: xs, k => (x, fail k) :: run_each fail xs (k + 1)

/-- Run a list of operations under one shared exception handler (the DM
delivery of one member in the scan task): the first failure is attempted,
recorded, and aborts the remaining operations of the list. -/
def run_seq {α : Type} (fail : Nat → Bool) : List α → Nat → List (α × Bool)
  | [], _ => []
  | x :: xs, k => if fail k then [(x, true)] else (x, false) :: run_seq fail xs (k + 1)

/-- Accumulated state of one scan pass (prime.py lines 208-211). -/
structure ScanResult where
  new_last_checked_id : Nat
  all_image_links : List (List Char)
  all_video_links : List (List Char)
  all_weird_links : List (List Char)
deriving DecidableEq

/-- Body of the `async for msg in history` loop (prime.py lines 213-237). -/
def scan_step (acc : ScanResult) (msg : Message) : ScanResult :=
  let nid := if msg.id > acc.new_last_checked_id then msg.id else acc.new_last_checked_id
  if msg.author_bot then
    { acc with new_last_checked_id := nid }
  else
    { new_last_checked_id := nid
      all_image_links := acc.all_image_links ++ image_links msg
      all_video_links := acc.all_video_links ++ video_links msg
      all_weird_links := acc.all_weird_links ++ weird_links msg }

/-- The whole history loop, starting from `last_checked_id or 0`. -/
def scan_messages (c : Nat) (msgs : List Message) : ScanResult :=
  msgs.foldl scan_step
    { new_last_checked_id := c
      all_image_links := []
      all_video_links := []
      all_weird_links := [] }

/-- A role member (prime.py line 254): the scan task reads only identity
and the automated flag. -/
structure Member where
  uid : Nat
  bot : Bool
deriving DecidableEq

/-- Messages the history fetch yields (prime.py lines 202-206): all of the
channel when the stored cursor is absent or zero (both falsy in Python),
otherwise the messages with identifier strictly greater than the cursor. -/
def fetch_after (cursor : Option Nat) (channel : List Message) : List Message :=
  match cursor with
  | some c => if c == 0 then channel else channel.filter (fun m => decide (c < m.id))
  | none => channel

/-- The DM sends queued for every member: image-embed chunks of at most
ten, then video links, then weird links (prime.py lines 260-275). -/
def member_sends (r : ScanResult) : List SendPayload :=
  (chunk_list r.all_image_links 10).map SendPayload.embeds
    ++ r.all_video_links.map SendPayload.link
    ++ r.all_weird_links.map SendPayload.link

/-- Delivery to one member as actually attempted: operation 0 is
`member.create_dm()`; the sends follow at operations 1, 2, ... under the
single per-member try/except of prime.py lines 256-280, so the first
failure aborts the remaining sends of that member. -/
def member_delivery (fail : Nat → Bool) (r : ScanResult) : List (SendPayload × Bool) :=
  if fail 0 then [] else run_seq fail (member_sends r) 1

/-- Outcome of one run of the scan task: the value written by `save_data`
(`none` when the task returned without saving) and the attempted delivery
of each non-automated member in order. -/
structure ScanOutcome where
  saved_cursor : Option Nat
  deliveries : List (Member × List (SendPayload × Bool))
deriving DecidableEq

/-- Translation of `daily_media_scan` (prime.py lines 186-284).
`channel_found` is whether `bot.get_channel(SOURCE_CHANNEL_ID)` finds the
source channel; `role` is `some members` when `guild.get_role(ROLE_ID)`
resolves; `member_fail uid k` says whether operation `k` of the member
with identity `uid` raises. -/
def daily_media_scan (cursor : Option Nat) (channel : List Message)
    (channel_found : Bool) (role : Option (List Member))
    (member_fail : Nat → Nat → Bool) : ScanOutcome :=
  if !channel_found then { saved_cursor := none, deliveries := [] }
  else
    let fetched := fetch_after cursor channel
    let r := scan_messages (cursor.getD 0) fetched
    if r.all_image_links.isEmpty && r.all_video_links.isEmpty && r.all_weird_links.isEmpty then
      { saved_cursor := some r.new_last_checked_id, deliveries := [] }
    else
      match role with
      | none => { saved_cursor := some r.new_last_checked_id, deliveries := [] }
      | some members =>
        { saved_cursor := some r.new_last_checked_id
          deliveries := (members.filter (fun x => !x.bot)).map
            (fun x => (x, member_delivery (member_fail x.uid) r)) }

/-- Modelled from the spec: the 8 MiB attachment size limit of the
attachment-forwarding variant of the notify task (spec section 4.3); the
variant is absent from `src/prime.py`. -/
def ATTACHMENT_SIZE_LIMIT : Nat := 8 * 1024 * 1024

/-- Modelled from the spec: the attachment-forwarding variant of the
notify task (spec section 4.3), absent from `src/prime.py`.  Any
attachment whose byte size exceeds the limit is skipped entirely (not
sent, not substituted with a link); the rest are chunked at most ten per
outbound message. -/
def forward_attachment_batches (limit : Nat) (atts : List Attachment) : List (List Attachment) :=
  chunk_list (atts.filter (fun a => decide (a.size ≤ limit))) 10

/-- Spec-side predicate (claim C1 wording): the URL case-insensitively
ends in one of the media suffixes, or contains the CDN attachment
substring. -/
def SpecMedia (url : List Char) : Prop :=
  (∃ ext, ext ∈ media_extensions ∧ ∃ p, p ++ ext = lower url)
    ∨ (∃ l r, l ++ cdn_sub ++ r = lower url)

/-- Spec-side predicate (claim C1 wording): the URL case-insensitively
ends in one of the image suffixes. -/
def SpecImage (url : List Char) : Prop :=
  ∃ ext, ext ∈ image_extensions ∧ ∃ p, p ++ ext = lower url

/-- Example attachment for the concrete scenarios below. -/
def ex_att : Attachment := { url := ("http://i.png").data, size := 0 }

/-- Example source message holding eleven image attachments, so that its
image links chunk into two embed batches. -/
def ex_scan_msg : Message :=
  { id := 6, author_bot := false, content := [], attachments := List.replicate 11 ex_att }

/-- Example member of the notification role. -/
def ex_member : Member := { uid := 1, bot := false }

/-- Failure oracle making operation 1 (the first DM send) of every member
raise, while `create_dm` (operation 0) succeeds. -/
def ex_fail : Nat → Nat → Bool := fun _ k => k == 1

/-- Example message with text but no links. -/
def ex_empty_msg : Message :=
  { id := 1, author_bot := false, content := ("hello world").data, attachments := [] }

/-- The relocation scenario of spec section 8. -/
def ex_reloc_msg : Message :=
  { id := 2, author_bot := false
    content := ("look https://cdn.discordapp.com/attachments/x.png check this https://example.com/page").data
    attachments := [] }

/-- Example channel for the cursor claim: one automated-author message. -/
def ex_ch2 : List Message :=
  [{ id := 7, author_bot := true, content := [], attachments := [] }]

/-- Example channel for the idempotence claim: one message with one image
attachment. -/
def ex_ch7 : List Message :=
  [{ id := 3, author_bot := false, content := [], attachments := [ex_att] }]

/-- Example attachment list for the oversized-attachment claim: one 9 MiB
attachment among two small ones. -/
def ex_big : Attachment := { url := ("http://big.bin").data, size := 9 * 1024 * 1024 }

/-- Example small attachment for the oversized-attachment claim. -/
def ex_small : Attachment := { url := ("http://small.png").data, size := 1024 }

/-! ## Lemmas about the string model -/

theorem begins_with_iff (p : List Char) : ∀ (s : List Char),
    begins_with s p = true ↔ ∃ r, p ++ r = s := by
  induction p with
  | nil =>
    intro s
    simp [begins_with]
  | cons d ds ih =>
    intro s
    cases s with
    | nil => simp [begins_with]
    | cons c cs =>
      simp only [begins_with, Bool.and_eq_true, beq_iff_eq, ih, List.cons_append]
      constructor
      · rintro ⟨h1, r, h2⟩
        exact ⟨r, by rw [h1, h2]⟩
      · rintro ⟨r, h⟩
        injection h with h1 h2
        exact ⟨h1.symm, r, h2⟩

theorem contains_sub_iff (sub : List Char) : ∀ (s : List Char),
    contains_sub s sub = true ↔ ∃ l r, l ++ sub ++ r = s := by
  intro s
  induction s with
  | nil =>
    simp only [contains_sub, List.isEmpty_iff]
    constructor
    · rintro rfl
      exact ⟨[], [], rfl⟩
    · rintro ⟨l, r, h⟩
      simp only [List.append_eq_nil] at h
      exact h.1.2
  | cons c tl ih =>
    simp only [contains_sub, Bool.or_eq_true, begins_with_iff, ih]
    constructor
    · rintro (⟨r, h⟩ | ⟨l, r, h⟩)
      · exact ⟨[], r, by simpa using h⟩
      · exact ⟨c :: l, r, by simp [h]⟩
    · rintro ⟨l, r, h⟩
      cases l with
      | nil => exact Or.inl ⟨r, by simpa using h⟩
      | cons a l0 =>
        injection h with h1 h2
        exact Or.inr ⟨l0, r, h2⟩

theorem ends_with_iff (s suf : List Char) :
    ends_with s suf = true ↔ ∃ p, p ++ suf = s := by
  unfold ends_with
  rw [beq_iff_eq]
  constructor
  · intro h
    refine ⟨s.take (s.length - suf.length), ?_⟩
    have hsplit := List.take_append_drop (s.length - suf.length) s
    rw [h] at hsplit
    exact hsplit
  · rintro ⟨p, rfl⟩
    rw [List.length_append, Nat.add_sub_cancel, List.drop_left]

theorem is_media_link_iff (url : List Char) :
    is_media_link url = true ↔ SpecMedia url := by
  unfold is_media_link SpecMedia
  simp only [Bool.or_eq_true, List.any_eq_true, ends_with_iff, contains_sub_iff]

theorem is_image_link_iff (url : List Char) :
    is_image_link url = true ↔ SpecImage url := by
  unfold is_image_link SpecImage
  simp only [List.any_eq_true, ends_with_iff]

/-- Claim C1: classification is total and deterministic; a URL whose
lowercase form ends in one of the nine media suffixes or contains the CDN
attachment substring is media, the image-suffix subset yields `Image`,
every other media match yields `Video`, and every other URL is `Weird`. -/
theorem classify_characterization (url : List Char) :
    (classify url = LinkKind.Image ↔ SpecMedia url ∧ SpecImage url) ∧
    (classify url = LinkKind.Video ↔ SpecMedia url ∧ ¬ SpecImage url) ∧
    (classify url = LinkKind.Weird ↔ ¬ SpecMedia url) := by
  have hm := is_media_link_iff url
  have hi := is_image_link_iff url
  unfold classify
  by_cases h1 : is_media_link url = true
  · by_cases h2 : is_image_link url = true
    · simp [h1, h2, hm.mp h1, hi.mp h2]
    · have h2s : ¬ SpecImage url := fun hs => h2 (hi.mpr hs)
      simp [h1, h2, hm.mp h1, h2s]
  · have h1s : ¬ SpecMedia url := fun hs => h1 (hm.mpr hs)
    have h2s : ¬ SpecImage url := by
      intro hs
      rcases hs with ⟨ext, hmem, p, hp⟩
      apply h1s
      refine Or.inl ⟨ext, ?_, p, hp⟩
      revert hmem
      unfold image_extensions media_extensions
      intro hmem
      simp only [List.mem_cons, List.not_mem_nil, or_false] at hmem ⊢
      tauto
    simp [h1, h1s, h2s]

/-- Claim C1 witness: a concrete uppercase image URL classifies as `Image`. -/
theorem classify_characterization_witness :
    classify (("HTTP://A.PNG").data) = LinkKind.Image :=
  (classify_characterization (("HTTP://A.PNG").data)).1.mpr
    ⟨Or.inl ⟨(".png").data, by decide, ("http://a").data, by decide⟩,
     ⟨(".png").data, by decide, ("http://a").data, by decide⟩⟩

/-! ## Lemmas about chunking -/

theorem chunk_aux_flatten {α : Type} (n : Nat) : ∀ (fuel : Nat) (l : List α),
    l.length ≤ fuel → (chunk_aux fuel l (n + 1)).flatten = l := by
  intro fuel
  induction fuel with
  | zero =>
    intro l h
    rw [List.length_eq_zero.mp (Nat.le_zero.mp h)]
    rfl
  | succ f ih =>
    intro l h
    cases l with
    | nil => rfl
    | cons c cs =>
      simp only [chunk_aux, List.flatten_cons]
      rw [ih ((c :: cs).drop (n + 1))
        (by have hh : cs.length + 1 ≤ f + 1 := by simpa using h
            simp only [List.length_drop, List.length_cons]
            omega)]
      exact List.take_append_drop _ _

theorem chunk_aux_length {α : Type} (n : Nat) : ∀ (fuel : Nat) (l : List α),
    l.length ≤ fuel → (chunk_aux fuel l (n + 1)).length = (l.length + n) / (n + 1) := by
  intro fuel
  induction fuel with
  | zero =>
    intro l h
    rw [List.length_eq_zero.mp (Nat.le_zero.mp h)]
    simp [chunk_aux, Nat.div_eq_of_lt (Nat.lt_succ_self n)]
  | succ f ih =>
    intro l h
    cases l with
    | nil => simp [chunk_aux, Nat.div_eq_of_lt (Nat.lt_succ_self n)]
    | cons c cs =>
      simp only [chunk_aux, List.length_cons]
      rw [ih ((c :: cs).drop (n + 1))
        (by have hh : cs.length + 1 ≤ f + 1 := by simpa using h
            simp only [List.length_drop, List.length_cons]
            omega)]
      simp only [List.length_drop, List.length_cons]
      rcases le_or_lt (n + 1) (cs.length + 1) with hc | hc
      · have h1 : cs.length + 1 - (n + 1) + n = cs.length := by omega
        have h2 : cs.length + 1 + n = cs.length + (n + 1) := by omega
        rw [h1, h2, Nat.add_div_right _ (Nat.succ_pos n)]
      · have h1 : cs.length + 1 - (n + 1) + n = n := by omega
        have h2 : cs.length + 1 + n = cs.length + (n + 1) := by omega
        rw [h1, h2, Nat.add_div_right _ (Nat.succ_pos n),
          Nat.div_eq_of_lt (Nat.lt_succ_self n), Nat.div_eq_of_lt (by omega)]

theorem chunk_aux_mem {α : Type} (n : Nat) : ∀ (fuel : Nat) (l : List α) (c : List α),
    c ∈ chunk_aux fuel l n → c.length ≤ n := by
  intro fuel
  induction fuel with
  | zero =>
    intro l c hc
    cases hc
  | succ f ih =>
    intro l c hc
    cases l with
    | nil => cases hc
    | cons x xs =>
      simp only [chunk_aux, List.mem_cons] at hc
      rcases hc with rfl | hc
      · rw [List.length_take]
        exact min_le_left _ _
      · exact ih _ c hc

/-- Claim C6: chunking a list of links with size 10 yields exactly
ceil(N/10) batches, every batch has at most 10 elements, and the batches
concatenate back to the input list in its original order. -/
theorem chunk_law (l : List (List Char)) :
    (chunk_list l 10).length = (l.length + 9) / 10 ∧
    (∀ c ∈ chunk_list l 10, c.length ≤ 10) ∧
    (chunk_list l 10).flatten = l := by
  refine ⟨?_, ?_, ?_⟩
  · exact chunk_aux_length 9 l.length l (Nat.le_refl _)
  · intro c hc
    exact chunk_aux_mem 10 l.length l c hc
  · exact chunk_aux_flatten 9 l.length l (Nat.le_refl _)

/-- Claim C6 witness: a 25-link list chunks into batches that flatten back
to the input and number ceil(25/10) = 3. -/
theorem chunk_law_witness :
    (chunk_list (List.replicate 25 (("x").data)) 10).flatten
        = List.replicate 25 (("x").data) ∧
    (chunk_list (List.replicate 25 (("x").data)) 10).length = 3 := by
  refine ⟨(chunk_law _).2.2, ?_⟩
  have h := (chunk_law (List.replicate 25 (("x").data))).1
  simpa using h

/-! ## Lemmas about the scan pass -/

theorem scan_step_id (a : ScanResult) (m : Message) :
    (scan_step a m).new_last_checked_id = max a.new_last_checked_id m.id := by
  unfold scan_step
  by_cases hb : m.author_bot <;> simp [hb, Nat.max_def] <;> split <;> split <;> omega

theorem scan_messages_id (msgs : List Message) : ∀ (a : ScanResult),
    (msgs.foldl scan_step a).new_last_checked_id
      = msgs.foldl (fun x m => max x m.id) a.new_last_checked_id := by
  induction msgs with
  | nil => intro a; rfl
  | cons m ms ih =>
    intro a
    simp only [List.foldl_cons]
    rw [ih, scan_step_id]

theorem scan_id_foldl (c : Nat) (msgs : List Message) :
    (scan_messages c msgs).new_last_checked_id
      = msgs.foldl (fun x m => max x m.id) c := by
  unfold scan_messages
  rw [scan_messages_id]

theorem foldl_max_init (msgs : List Message) : ∀ (a : Nat),
    a ≤ msgs.foldl (fun x m => max x m.id) a := by
  induction msgs with
  | nil => intro a; exact Nat.le_refl a
  | cons m ms ih =>
    intro a
    exact le_trans (Nat.le_max_left _ _) (ih _)

theorem foldl_max_mem (msgs : List Message) : ∀ (a : Nat) (m : Message), m ∈ msgs →
    m.id ≤ msgs.foldl (fun x m => max x m.id) a := by
  induction msgs with
  | nil =>
    intro a m h
    cases h
  | cons x xs ih =>
    intro a m h
    rcases List.mem_cons.mp h with rfl | h2
    · exact le_trans (Nat.le_max_right _ _) (foldl_max_init xs _)
    · exact ih _ m h2

theorem foldl_max_le (msgs : List Message) : ∀ (a M : Nat), a ≤ M →
    (∀ m ∈ msgs, m.id ≤ M) → msgs.foldl (fun x m => max x m.id) a ≤ M := by
  induction msgs with
  | nil =>
    intro a M h _
    exact h
  | cons x xs ih =>
    intro a M h hall
    exact ih _ M (Nat.max_le.mpr ⟨h, hall x (List.mem_cons_self x xs)⟩)
      (fun m hm => hall m (List.mem_cons_of_mem _ hm))

theorem daily_saved (cursor : Option Nat) (channel : List Message)
    (role : Option (List Member)) (mf : Nat → Nat → Bool) :
    (daily_media_scan cursor channel true role mf).saved_cursor
      = some (scan_messages (cursor.getD 0) (fetch_after cursor channel)).new_last_checked_id := by
  unfold daily_media_scan
  simp only [Bool.not_true, Bool.false_eq_true, if_false]
  split
  · rfl
  · cases role <;> rfl

theorem daily_deliveries_empty_of_no_links (cursor : Option Nat) (channel : List Message)
    (role : Option (List Member)) (mf : Nat → Nat → Bool)
    (h : fetch_after cursor channel = []) :
    (daily_media_scan cursor channel true role mf).deliveries = [] := by
  unfold daily_media_scan
  simp [h, scan_messages]

theorem daily_deliveries_shape (cursor : Option Nat) (channel : List Message)
    (members : List Member) (mf : Nat → Nat → Bool) :
    (daily_media_scan cursor channel true (some members) mf).deliveries = []
      ∨ (daily_media_scan cursor channel true (some members) mf).deliveries
        = (members.filter (fun x => !x.bot)).map
            (fun x => (x, member_delivery (mf x.uid)
              (scan_messages (cursor.getD 0) (fetch_after cursor channel)))) := by
  unfold daily_media_scan
  simp only [Bool.not_true, Bool.false_eq_true, if_false]
  split
  · exact Or.inl rfl
  · exact Or.inr rfl

/-- Claim C2: a scan pass loading cursor c persists exactly the maximum
identifier M of the fetched set whenever M is at least c; with nothing
fetched the persisted cursor equals c; the persisted cursor never drops
below c.  The maximum ranges over the whole fetched set, automated
authors included, in whatever order the set is listed. -/
theorem cursor_persisted_max (c : Nat) (channel : List Message)
    (role : Option (List Member)) (mf : Nat → Nat → Bool) :
    (fetch_after (some c) channel = [] →
      (daily_media_scan (some c) channel true role mf).saved_cursor = some c) ∧
    (∀ M, M ∈ (fetch_after (some c) channel).map Message.id →
      (∀ x ∈ (fetch_after (some c) channel).map Message.id, x ≤ M) → c ≤ M →
      (daily_media_scan (some c) channel true role mf).saved_cursor = some M) ∧
    (∃ v, (daily_media_scan (some c) channel true role mf).saved_cursor = some v ∧ c ≤ v) := by
  have hs := daily_saved (some c) channel role mf
  rw [scan_id_foldl] at hs
  refine ⟨?_, ?_, ?_⟩
  · intro h
    rw [hs, h]
    rfl
  · intro M hM hub hcM
    rw [hs]
    congr 1
    apply Nat.le_antisymm
    · apply foldl_max_le _ _ _ hcM
      intro m hm
      exact hub m.id (List.mem_map.mpr ⟨m, hm, rfl⟩)
    · rcases List.mem_map.mp hM with ⟨m, hm, rfl⟩
      exact foldl_max_mem _ _ _ hm
  · exact ⟨_, hs, foldl_max_init _ _⟩

/-- Claim C2 witness: with cursor 5 and one fetched automated-author
message of identifier 7, the persisted cursor is 7. -/
theorem cursor_persisted_max_witness :
    (daily_media_scan (some 5) ex_ch2 true none (fun _ _ => false)).saved_cursor = some 7 :=
  (cursor_persisted_max 5 ex_ch2 none (fun _ _ => false)).2.1 7 (by decide) (by decide) (by decide)

/-- Claim C8: when the configured role cannot be resolved, the scan pass
still persists the maximum message identifier seen and sends no direct
message. -/
theorem role_missing_consumes (cursor : Option Nat) (channel : List Message)
    (mf : Nat → Nat → Bool) :
    (daily_media_scan cursor channel true none mf).deliveries = [] ∧
    (daily_media_scan cursor channel true none mf).saved_cursor
      = some ((fetch_after cursor channel).foldl (fun x m => max x m.id) (cursor.getD 0)) := by
  constructor
  · unfold daily_media_scan
    simp only [Bool.not_true, Bool.false_eq_true, if_false]
    split
    · rfl
    · rfl
  · rw [daily_saved, scan_id_foldl]

/-- Claim C10: a stored cursor of 0 behaves exactly like an absent cursor:
both fetch the whole channel history, the scan task behaves identically
under both, and a pass over an empty channel with an absent cursor
persists the integer 0. -/
theorem zero_cursor_like_absent (channel : List Message)
    (role : Option (List Member)) (mf : Nat → Nat → Bool) :
    fetch_after (some 0) channel = channel ∧
    fetch_after none channel = channel ∧
    daily_media_scan (some 0) channel true role mf
      = daily_media_scan none channel true role mf ∧
    (daily_media_scan none [] true role mf).saved_cursor = some 0 := by
  refine ⟨rfl, rfl, rfl, ?_⟩
  rw [daily_saved, scan_id_foldl]
  rfl

/-- Claim C7: a second scan run starting from the cursor persisted by any
run over the same channel (no new messages in between) fetches nothing
relevant and performs zero deliveries. -/
theorem scan_idempotent (cursor : Option Nat) (channel : List Message)
    (role1 role2 : Option (List Member)) (mf1 mf2 : Nat → Nat → Bool)
    (hpos : ∀ m ∈ channel, 0 < m.id) (v : Nat)
    (hv : (daily_media_scan cursor channel true role1 mf1).saved_cursor = some v) :
    (daily_media_scan (some v) channel true role2 mf2).deliveries = [] := by
  have hs := daily_saved cursor channel role1 mf1
  rw [scan_id_foldl] at hs
  rw [hs] at hv
  have hveq : (fetch_after cursor channel).foldl (fun x m => max x m.id) (cursor.getD 0) = v :=
    Option.some.inj hv
  have hub : ∀ m ∈ channel, m.id ≤ v := by
    intro m hm
    rw [← hveq]
    cases cursor with
    | none => exact foldl_max_mem _ _ _ hm
    | some c =>
      by_cases hc : c == 0
      · simp only [fetch_after, if_pos hc]
        exact foldl_max_mem _ _ _ hm
      · by_cases hcm : c < m.id
        · have hmem : m ∈ fetch_after (some c) channel := by
            simp only [fetch_after, if_neg hc]
            exact List.mem_filter.mpr ⟨hm, by simpa using hcm⟩
          exact foldl_max_mem _ _ _ hmem
        · exact le_trans (Nat.le_of_not_lt hcm) (foldl_max_init _ _)
  have hfetch : fetch_after (some v) channel = [] := by
    by_cases hv0 : v = 0
    · have hch : channel = [] := by
        cases channel with
        | nil => rfl
        | cons x xs =>
          exfalso
          have h1 := hpos x (List.mem_cons_self x xs)
          have h2 := hub x (List.mem_cons_self x xs)
          omega
      rw [hch]
      simp [fetch_after]
    · simp only [fetch_after]
      rw [if_neg (by simpa using hv0)]
      apply List.filter_eq_nil_iff.mpr
      intro m hm
      have := hub m hm
      simpa using Nat.not_lt.mpr this
  exact daily_deliveries_empty_of_no_links (some v) channel role2 mf2 hfetch

/-- Claim C7 witness: after a run over a one-message channel persists
cursor 3, a rerun over the same channel performs zero deliveries. -/
theorem scan_idempotent_witness :
    (daily_media_scan (some 3) ex_ch7 true (some [ex_member]) (fun _ _ => false)).deliveries = [] :=
  scan_idempotent none ex_ch7 (some [ex_member]) (some [ex_member])
    (fun _ _ => false) (fun _ _ => false) (by decide) 3 (by decide)

/-! ## Lemmas about failure handling -/

theorem run_each_fst {α : Type} (fail : Nat → Bool) : ∀ (l : List α) (k : Nat),
    (run_each fail l k).map Prod.fst = l := by
  intro l
  induction l with
  | nil => intro k; rfl
  | cons x xs ih =>
    intro k
    simp [run_each, ih]

theorem run_seq_fst_take {α : Type} (fail : Nat → Bool) : ∀ (l : List α) (k : Nat),
    (run_seq fail l k).map Prod.fst = l.take (run_seq fail l k).length := by
  intro l
  induction l with
  | nil => intro k; rfl
  | cons x xs ih =>
    intro k
    by_cases h : fail k
    · simp [run_seq, h]
    · simp [run_seq, h, ih]

theorem member_delivery_take (fail : Nat → Bool) (r : ScanResult) :
    (member_delivery fail r).map Prod.fst
      = (member_sends r).take (member_delivery fail r).length := by
  unfold member_delivery
  by_cases h : fail 0
  · simp [h]
  · simp only [h, Bool.false_eq_true, if_false]
    exact run_seq_fst_take fail (member_sends r) 1

/-- Claim C3 counterexample: it is not true that in the scan-and-notify
fan-out a send failure of one link chunk leaves the remaining chunks of
the same delivery attempted: with eleven image links (two embed
chunks) and the first DM send raising, only one of the two queued sends
is attempted for the member. -/
theorem fanout_chunk_isolation_cex :
    ¬ (∀ (cursor : Option Nat) (channel : List Message) (members : List Member)
        (mf : Nat → Nat → Bool),
        ∀ d ∈ (daily_media_scan cursor channel true (some members) mf).deliveries,
          d.2.map Prod.fst
            = member_sends (scan_messages (cursor.getD 0) (fetch_after cursor channel))) := by
  intro h
  exact absurd (h (some 5) [ex_scan_msg] [ex_member] ex_fail) (by decide)

/-- Claim C3 (amended): in the relocation workflow every queued send is
attempted regardless of earlier send failures; in the scan-and-notify
fan-out isolation is per member: every non-automated role member gets a
delivery attempt regardless of failures at other members, but a failure
inside the delivery to one member truncates the attempted sends of that
member to an initial segment of the queued sends. -/
theorem error_isolation_amended (fail : Nat → Bool) (m : Message)
    (cursor : Option Nat) (channel : List Message) (members : List Member)
    (mf : Nat → Nat → Bool) :
    ((run_each fail (relocation_sends m) 0).map Prod.fst = relocation_sends m) ∧
    ((daily_media_scan cursor channel true (some members) mf).deliveries = []
      ∨ (daily_media_scan cursor channel true (some members) mf).deliveries.map Prod.fst
        = members.filter (fun x => !x.bot)) ∧
    (∀ d ∈ (daily_media_scan cursor channel true (some members) mf).deliveries,
      d.2.map Prod.fst
        = (member_sends (scan_messages (cursor.getD 0) (fetch_after cursor channel))).take
            d.2.length) := by
  refine ⟨run_each_fst fail _ 0, ?_, ?_⟩
  · rcases daily_deliveries_shape cursor channel members mf with h | h
    · exact Or.inl h
    · right
      rw [h, List.map_map]
      have hcomp : (Prod.fst ∘ fun x => (x, member_delivery (mf x.uid)
          (scan_messages (cursor.getD 0) (fetch_after cursor channel))))
            = fun x : Member => x := rfl
      rw [hcomp, List.map_id']
  · intro d hd
    rcases daily_deliveries_shape cursor channel members mf with h | h
    · rw [h] at hd
      cases hd
    · rw [h] at hd
      rcases List.mem_map.mp hd with ⟨x, hx, rfl⟩
      exact member_delivery_take _ _

/-- Claim C3 witness: in the relocation workflow, with the first send
failing, every queued send of a two-chunk message is still attempted. -/
theorem error_isolation_amended_witness :
    (run_each (fun k => k == 0) (relocation_sends ex_scan_msg) 0).map Prod.fst
      = relocation_sends ex_scan_msg :=
  (error_isolation_amended (fun k => k == 0) ex_scan_msg (some 5) [ex_scan_msg]
    [ex_member] ex_fail).1

/-- Claim C4: the relocation workflow deletes the original message only
when the combined link list is non-empty, and when the deletion itself
fails nothing at all is posted to the destination channel. -/
theorem delete_guard (m : Message) (delete_ok dest_found : Bool) :
    (combined_links m = [] → on_message_actions m delete_ok dest_found = []) ∧
    (Action.delete_original ∈ on_message_actions m delete_ok dest_found →
      combined_links m ≠ []) ∧
    (∀ p, Action.send p ∈ on_message_actions m false dest_found → False) := by
  refine ⟨?_, ?_, ?_⟩
  · intro h
    simp [on_message_actions, h]
  · intro hmem h
    simp [on_message_actions, h] at hmem
  · intro p hp
    unfold on_message_actions at hp
    by_cases h : (combined_links m).isEmpty
    · simp [h] at hp
    · simp [h] at hp

/-- Claim C4 witness: a message with text but no links triggers no delete
and no post. -/
theorem delete_guard_witness :
    on_message_actions ex_empty_msg true true = [] :=
  (delete_guard ex_empty_msg true true).1 (by decide)

/-! ## Lemmas relating the filter cascade to classification -/

theorem filter_image_eq (m : Message) :
    image_links m = (combined_links m).filter (fun u => classify u == LinkKind.Image) := by
  unfold image_links normal_links
  rw [List.filter_filter]
  apply List.filter_congr
  intro u _
  unfold classify
  by_cases h1 : is_media_link u <;> by_cases h2 : is_image_link u <;> simp [h1, h2]

theorem filter_video_eq (m : Message) :
    video_links m = (combined_links m).filter (fun u => classify u == LinkKind.Video) := by
  unfold video_links normal_links
  rw [List.filter_filter]
  apply List.filter_congr
  intro u _
  unfold classify
  by_cases h1 : is_media_link u <;> by_cases h2 : is_image_link u <;> simp [h1, h2]

theorem filter_weird_eq (m : Message) :
    weird_links m = (combined_links m).filter (fun u => classify u == LinkKind.Weird) := by
  unfold weird_links
  apply List.filter_congr
  intro u _
  unfold classify
  by_cases h1 : is_media_link u <;> by_cases h2 : is_image_link u <;> simp [h1, h2]

theorem relocation_sends_spec (m : Message) :
    relocation_sends m =
      (if (py_strip m.content).isEmpty then []
          else [SendPayload.text (py_strip m.content)])
        ++ (chunk_list ((combined_links m).filter (fun u => classify u == LinkKind.Image)) 10).map
            SendPayload.embeds
        ++ ((combined_links m).filter (fun u => classify u == LinkKind.Video)).map
            SendPayload.link
        ++ ((combined_links m).filter (fun u => classify u == LinkKind.Weird)).map
            SendPayload.link := by
  unfold relocation_sends
  rw [filter_image_eq, filter_video_eq, filter_weird_eq]

/-- Claim C5: with deletion and destination lookup succeeding, the
relocation workflow posts in this fixed order: the trimmed original text
when non-empty, then the image links in embed batches of at most ten in
original order, then each video link as its own message, then each weird
link as its own message. -/
theorem replay_order (m : Message) (h : combined_links m ≠ []) :
    on_message_actions m true true =
      Action.delete_original ::
        ((if (py_strip m.content).isEmpty then []
            else [Action.send (SendPayload.text (py_strip m.content))])
          ++ ((chunk_list ((combined_links m).filter (fun u => classify u == LinkKind.Image)) 10).map
              (fun ch => Action.send (SendPayload.embeds ch)))
          ++ (((combined_links m).filter (fun u => classify u == LinkKind.Video)).map
              (fun u => Action.send (SendPayload.link u)))
          ++ (((combined_links m).filter (fun u => classify u == LinkKind.Weird)).map
              (fun u => Action.send (SendPayload.link u)))) := by
  unfold on_message_actions
  rw [if_neg (by simpa [List.isEmpty_iff] using h)]
  congr 1
  show (relocation_sends m).map Action.send = _
  rw [relocation_sends_spec]
  by_cases ht : (py_strip m.content).isEmpty <;>
    simp [ht, List.map_append, List.map_map, Function.comp_def]

/-- Claim C5 witness: the relocation scenario of spec section 8 posts the
text, then one embed batch with the CDN image link, then the weird link. -/
theorem replay_order_witness :
    on_message_actions ex_reloc_msg true true =
      [Action.delete_original,
       Action.send (SendPayload.text ex_reloc_msg.content),
       Action.send (SendPayload.embeds [("https://cdn.discordapp.com/attachments/x.png").data]),
       Action.send (SendPayload.link (("https://example.com/page").data))] := by
  have h := replay_order ex_reloc_msg (by decide)
  rw [h]
  decide

/-- Claim C9: in the spec-modelled attachment-forwarding variant, every
attachment whose byte size exceeds the limit is skipped entirely (in no
batch, not substituted), while the remaining attachments are all
delivered, chunked at most ten per outbound message. -/
theorem oversized_attachment_skipped (limit : Nat) (atts : List Attachment) :
    (forward_attachment_batches limit atts).flatten
        = atts.filter (fun a => decide (a.size ≤ limit)) ∧
    (∀ ch ∈ forward_attachment_batches limit atts, ch.length ≤ 10) ∧
    (∀ a ∈ atts, limit < a.size →
      ∀ ch ∈ forward_attachment_batches limit atts, a ∉ ch) := by
  have hflat : (forward_attachment_batches limit atts).flatten
      = atts.filter (fun a => decide (a.size ≤ limit)) :=
    chunk_aux_flatten 9 _ _ (Nat.le_refl _)
  refine ⟨hflat, ?_, ?_⟩
  · intro ch hch
    exact chunk_aux_mem 10 _ _ ch hch
  · intro a _ hbig ch hch hmem
    have h1 : a ∈ (forward_attachment_batches limit atts).flatten :=
      List.mem_flatten.mpr ⟨ch, hch, hmem⟩
    rw [hflat] at h1
    have h2 := (List.mem_filter.mp h1).2
    simp only [decide_eq_true_eq] at h2
    omega

/-- Claim C9 witness: a 9 MiB attachment exceeds the 8 MiB limit and is
absent from the delivery batch holding the remaining attachment. -/
theorem oversized_attachment_skipped_witness :
    ATTACHMENT_SIZE_LIMIT < ex_big.size ∧ ex_big ∉ ([ex_small] : List Attachment) :=
  ⟨by decide,
   (oversized_attachment_skipped ATTACHMENT_SIZE_LIMIT [ex_small, ex_big]).2.2 ex_big
     (by decide) (by decide) [ex_small] (by decide)⟩

end Prime
